import Mathlib

/-!
Verification of the reviewly local caching and staleness-management layer.

The definitions below are a shallow embedding of the TypeScript services
`repoCache.ts`, `prStatusService.ts`, `github.ts` and the AI cache service.
Browser local storage is modelled as an association list from string keys to
stored values; `Date.now()` becomes an explicit `now : Nat` argument
(epoch milliseconds); a `setItem` call that may throw a quota error is
modelled by an explicit success flag or predicate; `try/catch` containment
becomes totality of the corresponding Lean function.
-/

namespace Reviewly

/-! ### String helpers

The JavaScript operations `key.startsWith(p)` and `message.includes(p)`
are modelled over the character lists of the strings, so that they both
evaluate on concrete inputs and admit general lemmas. -/

/-- Checks that the first list is a prefix of the second (pattern first). -/
def charsPre : List Char → List Char → Bool
  | [], _ => true
  | _ :: _, [] => false
  | c :: cs, d :: ds => c = d && charsPre cs ds

/-- Checks that the pattern occurs as a contiguous substring of the second list. -/
def charsContains (pat : List Char) : List Char → Bool
  | [] => charsPre pat []
  | c :: rest => charsPre pat (c :: rest) || charsContains pat rest

/-- Model of the JavaScript `s.startsWith(p)`. -/
def strStartsWith (s p : String) : Bool := charsPre p.data s.data

/-- Model of the JavaScript `s.includes(p)`. -/
def strIncludes (s p : String) : Bool := charsContains p.data s.data

/-- Model of the JavaScript `s.toLowerCase()`. -/
def strLower (s : String) : String := ⟨s.data.map Char.toLower⟩

theorem charsPre_append_self (l r : List Char) : charsPre l (l ++ r) = true := by
  induction l with
  | nil => rfl
  | cons c cs ih => simp [charsPre, ih]

theorem strStartsWith_append (p s : String) : strStartsWith (p ++ s) p = true := by
  simp [strStartsWith, String.data_append, charsPre_append_self]

/-! ### Association lists

Local storage, the parsed triage blob and the in-memory AI cache are all
finite string-or-number keyed maps; JavaScript `Map.set` / object update
replaces the entry for an existing key in place and appends a new key. -/

section AList

variable {κ ν : Type} [DecidableEq κ]

/-- Reads the value stored under a key (JS `map.get(k)` / `localStorage.getItem(k)`). -/
def alGet (k : κ) : List (κ × ν) → Option ν
  | [] => none
  | (k1, v) :: rest => if k1 = k then some v else alGet k rest

/-- Replaces the entry for `k` in place, or appends it (JS `map.set(k, v)` /
`localStorage.setItem(k, v)`). -/
def alSet : List (κ × ν) → κ → ν → List (κ × ν)
  | [], k, v => [(k, v)]
  | (k1, v1) :: rest, k, v =>
      if k1 = k then (k, v) :: rest else (k1, v1) :: alSet rest k v

/-- Removes every entry for `k` (JS `map.delete(k)` / `localStorage.removeItem(k)`). -/
def alRemove (m : List (κ × ν)) (k : κ) : List (κ × ν) :=
  m.filter fun p => decide (p.1 ≠ k)

/-- Keys of the association list are pairwise distinct. -/
def alNodupKeys (m : List (κ × ν)) : Prop := (m.map Prod.fst).Nodup

@[simp]
theorem alGet_nil (k : κ) : alGet k ([] : List (κ × ν)) = none := rfl

theorem alGet_alSet_self (m : List (κ × ν)) (k : κ) (v : ν) :
    alGet k (alSet m k v) = some v := by
  induction m with
  | nil => simp [alSet, alGet]
  | cons p rest ih =>
      obtain ⟨k1, v1⟩ := p
      by_cases h : k1 = k
      · simp [alSet, h, alGet]
      · simp [alSet, h, alGet, ih]

theorem alGet_alSet_of_ne (m : List (κ × ν)) {k k2 : κ} (v : ν) (h : k ≠ k2) :
    alGet k2 (alSet m k v) = alGet k2 m := by
  induction m with
  | nil => simp [alSet, alGet, h]
  | cons p rest ih =>
      obtain ⟨k1, v1⟩ := p
      by_cases h1 : k1 = k
      · subst h1
        simp [alSet, alGet, h]
      · simp [alSet, h1, alGet, ih]

theorem alGet_eq_none_iff (m : List (κ × ν)) (k : κ) :
    alGet k m = none ↔ k ∉ m.map Prod.fst := by
  induction m with
  | nil => simp
  | cons p rest ih =>
      obtain ⟨k1, v1⟩ := p
      by_cases h : k1 = k
      · simp [alGet, h]
      · simp [alGet, h, ih, Ne.symm h]

theorem keys_alSet (m : List (κ × ν)) (k : κ) (v : ν) :
    (alSet m k v).map Prod.fst =
      if k ∈ m.map Prod.fst then m.map Prod.fst else m.map Prod.fst ++ [k] := by
  induction m with
  | nil => simp [alSet]
  | cons p rest ih =>
      obtain ⟨k1, v1⟩ := p
      by_cases h : k1 = k
      · simp [alSet, h]
      · by_cases h2 : k ∈ rest.map Prod.fst
        · simp [alSet, h, ih, h2, Ne.symm h]
        · simp [alSet, h, ih, h2, Ne.symm h]

theorem alNodupKeys_alSet {m : List (κ × ν)} (h : alNodupKeys m) (k : κ) (v : ν) :
    alNodupKeys (alSet m k v) := by
  unfold alNodupKeys at *
  rw [keys_alSet]
  by_cases hk : k ∈ m.map Prod.fst
  · simpa [hk]
  · simp only [hk, if_false]
    exact List.nodup_append.mpr ⟨h, List.nodup_singleton k, by simpa using hk⟩

theorem alSet_eq_append (m : List (κ × ν)) (k : κ) (v : ν)
    (h : alGet k m = none) : alSet m k v = m ++ [(k, v)] := by
  induction m with
  | nil => simp [alSet]
  | cons p rest ih =>
      obtain ⟨k1, v1⟩ := p
      by_cases h1 : k1 = k
      · simp [alGet, h1] at h
      · simp only [alGet, h1, if_false] at h
        simp [alSet, h1, ih h]

theorem mem_alSet_elim {m : List (κ × ν)} {k : κ} {v : ν} {x : κ × ν}
    (h : x ∈ alSet m k v) : x ∈ m ∨ x = (k, v) := by
  induction m with
  | nil => simpa [alSet] using h
  | cons p rest ih =>
      obtain ⟨k1, v1⟩ := p
      by_cases h1 : k1 = k
      · simp only [alSet, h1, if_true] at h
        rcases List.mem_cons.mp h with h | h
        · exact Or.inr h
        · exact Or.inl (List.mem_cons_of_mem _ h)
      · simp only [alSet, h1, if_false] at h
        rcases List.mem_cons.mp h with h | h
        · exact Or.inl (h ▸ List.mem_cons_self _ _)
        · rcases ih h with h | h
          · exact Or.inl (List.mem_cons_of_mem _ h)
          · exact Or.inr h

theorem mem_alSet_self_eq {m : List (κ × ν)} (hn : alNodupKeys m) {k : κ} {v w : ν}
    (h : (k, w) ∈ alSet m k v) : w = v := by
  induction m with
  | nil => simpa [alSet] using h
  | cons p rest ih =>
      obtain ⟨k1, v1⟩ := p
      unfold alNodupKeys at hn
      simp only [List.map_cons, List.nodup_cons] at hn
      by_cases h1 : k1 = k
      · subst h1
        simp only [alSet, if_true] at h
        rcases List.mem_cons.mp h with h | h
        · exact (Prod.mk.injEq _ _ _ _ ▸ h).2.symm ▸ rfl
        · exact absurd (List.mem_map_of_mem Prod.fst h) hn.1
      · simp only [alSet, h1, if_false] at h
        rcases List.mem_cons.mp h with h | h
        · exact absurd ((Prod.mk.injEq _ _ _ _ ▸ h).1) (fun hh => h1 hh.symm)
        · exact ih hn.2 h

theorem alGet_filter_pos {m : List (κ × ν)} {k : κ} {v : ν} (p : κ × ν → Bool)
    (h : alGet k m = some v) (hp : p (k, v) = true) :
    alGet k (m.filter p) = some v := by
  induction m with
  | nil => simp [alGet] at h
  | cons q rest ih =>
      obtain ⟨k1, v1⟩ := q
      by_cases h1 : k1 = k
      · subst h1
        simp only [alGet, if_true] at h
        cases h
        simp [List.filter, hp, alGet]
      · simp only [alGet, h1, if_false] at h
        by_cases hq : p (k1, v1) = true
        · simp [List.filter_cons, hq, alGet, h1, ih h]
        · simp only [Bool.not_eq_true] at hq
          simp [List.filter_cons, hq, ih h]

theorem alGet_filter_none {m : List (κ × ν)} {k : κ} (p : κ × ν → Bool)
    (h : alGet k m = none) : alGet k (m.filter p) = none := by
  induction m with
  | nil => simp
  | cons q rest ih =>
      obtain ⟨k1, v1⟩ := q
      by_cases h1 : k1 = k
      · simp [alGet, h1] at h
      · simp only [alGet, h1, if_false] at h
        by_cases hq : p (k1, v1) = true
        · simp [List.filter_cons, hq, alGet, h1, ih h]
        · simp only [Bool.not_eq_true] at hq
          simp [List.filter_cons, hq, ih h]

theorem alGet_filter_neg {m : List (κ × ν)} (hn : alNodupKeys m) {k : κ} {v : ν}
    (p : κ × ν → Bool) (h : alGet k m = some v) (hp : p (k, v) = false) :
    alGet k (m.filter p) = none := by
  induction m with
  | nil => simp [alGet] at h
  | cons q rest ih =>
      obtain ⟨k1, v1⟩ := q
      unfold alNodupKeys at hn
      simp only [List.map_cons, List.nodup_cons] at hn
      by_cases h1 : k1 = k
      · subst h1
        simp only [alGet, if_true] at h
        cases h
        have hnone : alGet k1 rest = none :=
          (alGet_eq_none_iff rest k1).mpr hn.1
        simp [List.filter_cons, hp, alGet_filter_none p hnone]
      · simp only [alGet, h1, if_false] at h
        by_cases hq : p (k1, v1) = true
        · simp [List.filter_cons, hq, alGet, h1, ih hn.2 h]
        · simp only [Bool.not_eq_true] at hq
          simp [List.filter_cons, hq, ih hn.2 h]

theorem alGet_alRemove_self (m : List (κ × ν)) (k : κ) :
    alGet k (alRemove m k) = none := by
  induction m with
  | nil => simp [alRemove]
  | cons q rest ih =>
      obtain ⟨k1, v1⟩ := q
      by_cases h1 : k1 = k
      · simpa [alRemove, List.filter_cons, h1] using ih
      · simpa [alRemove, List.filter_cons, h1, alGet] using ih

theorem alGet_alRemove_of_ne (m : List (κ × ν)) {k k2 : κ} (h : k ≠ k2) :
    alGet k2 (alRemove m k) = alGet k2 m := by
  induction m with
  | nil => simp [alRemove]
  | cons q rest ih =>
      obtain ⟨k1, v1⟩ := q
      by_cases h1 : k1 = k
      · subst h1
        simpa [alRemove, List.filter_cons, alGet, h] using ih
      · by_cases h2 : k1 = k2
        · simp [alRemove, List.filter_cons, h1, alGet, h2, Ne.symm h]
        · simpa [alRemove, List.filter_cons, h1, alGet, h2] using ih

end AList

/-! ### Model of `repoCache.ts`

Stored strings are either valid JSON of a cache-entry envelope or a non-JSON
string on which `JSON.parse` throws. The envelope carries whichever of the
`data` / `content` payload fields the writing namespace uses. -/

/-- Parsed JSON envelope of a repoCache entry (`{data?, content?, timestamp, etag?}`). -/
structure RawEntry where
  data : Option (List Nat) := none
  content : Option String := none
  timestamp : Nat
  etag : Option String := none
deriving DecidableEq, Repr

/-- A raw local-storage value. -/
inductive StoredVal where
  | json (e : RawEntry)
  | corrupt (s : String)
deriving DecidableEq, Repr

/-- Browser local storage: a flat string-keyed map. -/
abbrev Storage := List (String × StoredVal)

/-- One minute in milliseconds. -/
def minuteMs : Nat := 60 * 1000

/-- Repository cache TTL (`CACHE_DURATION = 5 * 60 * 1000`). -/
def CACHE_DURATION : Nat := 5 * minuteMs

/-- Pull-request cache TTL (`PR_CACHE_DURATION = 2 * 60 * 1000`). -/
def PR_CACHE_DURATION : Nat := 2 * minuteMs

/-- Key scheme `repo_{owner}_{repo}`. -/
def repoKey (owner repo : String) : String := "repo_" ++ (owner ++ ("_" ++ repo))

/-- Key scheme `prs_{owner}_{repo}`. -/
def prsKey (owner repo : String) : String := "prs_" ++ (owner ++ ("_" ++ repo))

/-- Key scheme `file_{owner}_{repo}_{path}_{sha}`. -/
def fileKey (owner repo path sha : String) : String :=
  "file_" ++ (owner ++ ("_" ++ (repo ++ ("_" ++ (path ++ ("_" ++ sha))))))

/-- Key scheme `user_repos_{username}`. -/
def userReposKey (username : String) : String := "user_repos_" ++ username

/-- Model of `cacheRepository`. The flag `ok` says whether the underlying
`localStorage.setItem` succeeds; on failure the catch block logs a warning and
the write is dropped. The second component counts `setItem` attempts. -/
def cacheRepository (ok : Bool) (now : Nat) (owner repo : String)
    (data : List Nat) (etag : Option String) (st : Storage) : Storage × Nat :=
  if ok then
    (alSet st (repoKey owner repo)
      (.json { data := some data, timestamp := now, etag := etag }), 1)
  else (st, 1)

/-- Model of `cachePullRequests` (same envelope and failure containment). -/
def cachePullRequests (ok : Bool) (now : Nat) (owner repo : String)
    (data : List Nat) (etag : Option String) (st : Storage) : Storage × Nat :=
  if ok then
    (alSet st (prsKey owner repo)
      (.json { data := some data, timestamp := now, etag := etag }), 1)
  else (st, 1)

/-- Model of `cacheFileContent` (stores `{content, timestamp}`). -/
def cacheFileContent (ok : Bool) (now : Nat) (owner repo path sha : String)
    (content : String) (st : Storage) : Storage × Nat :=
  if ok then
    (alSet st (fileKey owner repo path sha)
      (.json { content := some content, timestamp := now }), 1)
  else (st, 1)

/-- Model of `cacheUserRepos`. -/
def cacheUserRepos (ok : Bool) (now : Nat) (username : String)
    (data : List Nat) (etag : Option String) (st : Storage) : Storage × Nat :=
  if ok then
    (alSet st (userReposKey username)
      (.json { data := some data, timestamp := now, etag := etag }), 1)
  else (st, 1)

/-- Model of `getCachedRepository`: parse failure is caught and yields `null`
with the storage untouched; an entry older than `CACHE_DURATION` is removed
and `null` returned; otherwise the parsed entry is returned. -/
def getCachedRepository (now : Nat) (owner repo : String) (st : Storage) :
    Option RawEntry × Storage :=
  match alGet (repoKey owner repo) st with
  | none => (none, st)
  | some (.corrupt _) => (none, st)
  | some (.json e) =>
      if now - e.timestamp > CACHE_DURATION then (none, alRemove st (repoKey owner repo))
      else (some e, st)

/-- TTL used by `getCachedPullRequests`: the special `_all_` owner gets
`5 * 60 * 1000`, every other owner `PR_CACHE_DURATION`. -/
def prCacheDuration (owner : String) : Nat :=
  if owner = "_all_" then 5 * minuteMs else PR_CACHE_DURATION

/-- Model of `getCachedPullRequests`. -/
def getCachedPullRequests (now : Nat) (owner repo : String) (st : Storage) :
    Option RawEntry × Storage :=
  match alGet (prsKey owner repo) st with
  | none => (none, st)
  | some (.corrupt _) => (none, st)
  | some (.json e) =>
      if now - e.timestamp > prCacheDuration owner then
        (none, alRemove st (prsKey owner repo))
      else (some e, st)

/-- Model of `getCachedFileContent` (TTL 10 minutes, returns `parsed.content`). -/
def getCachedFileContent (now : Nat) (owner repo path sha : String) (st : Storage) :
    Option String × Storage :=
  match alGet (fileKey owner repo path sha) st with
  | none => (none, st)
  | some (.corrupt _) => (none, st)
  | some (.json e) =>
      if now - e.timestamp > 10 * minuteMs then
        (none, alRemove st (fileKey owner repo path sha))
      else (e.content, st)

/-- Return shape of `getCachedUserRepos`: the source returns
`{ data: parsed.data, etag: parsed.etag }`, an object with no timestamp
property, modelled by a `timestamp` field that is always `none`. -/
structure UserReposView where
  data : Option (List Nat)
  etag : Option String
  timestamp : Option Nat := none
deriving DecidableEq, Repr

/-- Model of `getCachedUserRepos` (TTL 10 minutes). -/
def getCachedUserRepos (now : Nat) (username : String) (st : Storage) :
    Option UserReposView × Storage :=
  match alGet (userReposKey username) st with
  | none => (none, st)
  | some (.corrupt _) => (none, st)
  | some (.json e) =>
      if now - e.timestamp > 10 * minuteMs then
        (none, alRemove st (userReposKey username))
      else (some { data := e.data, etag := e.etag, timestamp := none }, st)

/-- Key test used by `clearExpired` and `getStats` to recognise cache keys. -/
def managedKey (k : String) : Bool :=
  strStartsWith k "repo_" || strStartsWith k "prs_" ||
    strStartsWith k "file_" || strStartsWith k "user_repos_"

/-- Per-prefix TTL re-derived by `clearExpired` from the key shape: every
`prs_` key gets `PR_CACHE_DURATION`, `file_` and `user_repos_` keys 10
minutes, everything else `CACHE_DURATION`. -/
def sweepTTL (k : String) : Nat :=
  if strStartsWith k "prs_" then PR_CACHE_DURATION
  else if strStartsWith k "file_" || strStartsWith k "user_repos_" then 10 * minuteMs
  else CACHE_DURATION

/-- Fate of one storage entry under `clearExpired`: non-cache keys are left
alone; a cache entry is kept iff it parses and its age is within the
prefix-derived TTL (a corrupt entry is removed by the inner catch). -/
def keepOnSweep (now : Nat) (k : String) (v : StoredVal) : Bool :=
  if managedKey k then
    match v with
    | .json e => decide (¬ now - e.timestamp > sweepTTL k)
    | .corrupt _ => false
  else true

/-- Model of `clearExpired`: scan all keys and remove expired or corrupt
cache entries. -/
def clearExpired (now : Nat) (st : Storage) : Storage :=
  st.filter fun p => keepOnSweep now p.1 p.2

/-! ### Model of the stale-while-revalidate decisions in `github.ts`

The network itself is out of scope; what is embedded is the decision each
cacheable read makes from the cache entry and the clock: return the cached
payload with no fetch, return it and schedule a background refresh, or fall
through to a blocking fetch. -/

/-- Outcome of a cacheable read in `github.ts`. -/
inductive FetchAction where
  | cachedNoFetch
  | cachedBackgroundRefresh
  | blockingFetch
deriving DecidableEq, Repr

/-- Cache identity used by `getRepositories`: `{login}_p{page}_pp{perPage}`. -/
def userRepoListCacheKey (login : String) (page perPage : Nat) : String :=
  login ++ ("_p" ++ (toString page ++ ("_pp" ++ toString perPage)))

/-- Decision logic of `getRepositories` (lines 443-483): a non-empty cached
entry younger than 15 minutes is returned, with a background refresh once it
is older than 5 minutes; otherwise a blocking fetch runs. The age is computed
as `Date.now() - (cached.timestamp || 0)`, and the view returned by
`getCachedUserRepos` carries no timestamp property, so the subtraction sees
`0`. -/
def getRepositoriesAction (now : Nat) (login : String) (page perPage : Nat)
    (st : Storage) : FetchAction :=
  match (getCachedUserRepos now (userRepoListCacheKey login page perPage) st).1 with
  | some cached =>
      if 0 < (cached.data.getD []).length then
        let cacheAge := now - (cached.timestamp.getD 0)
        if cacheAge < 15 * minuteMs then
          if cacheAge > 5 * minuteMs then FetchAction.cachedBackgroundRefresh
          else FetchAction.cachedNoFetch
        else FetchAction.blockingFetch
      else FetchAction.blockingFetch
  | none => FetchAction.blockingFetch

/-- The pseudo-repo identity of the aggregate pull-request list. -/
def allPrsCacheKey : String := "all_prs_awaiting_review"

/-- Decision logic of `getAllPullRequestsAwaitingReview` (lines 559-587):
a non-empty aggregate cache entry younger than 10 minutes is returned, with a
background refresh once it is older than 2 minutes; otherwise the blocking
`fetchFreshPRsAwaitingReview` runs. Here the parsed entry does carry its
timestamp. -/
def getAllPRsAction (now : Nat) (st : Storage) : FetchAction :=
  match (getCachedPullRequests now "_all_" allPrsCacheKey st).1 with
  | some cached =>
      if 0 < (cached.data.getD []).length then
        let cacheAge := now - cached.timestamp
        if cacheAge < 10 * minuteMs then
          if cacheAge > 2 * minuteMs then FetchAction.cachedBackgroundRefresh
          else FetchAction.cachedNoFetch
        else FetchAction.blockingFetch
      else FetchAction.blockingFetch
  | none => FetchAction.blockingFetch

/-- Message thrown by the inner search-error handler on a rate-limited 403
(line 618). -/
def rateLimitThrownMessage : String :=
  "GitHub rate limit exceeded. Please wait a few minutes before trying again."

/-- Inner catch around the review-request search (lines 612-624): rethrows
with `rateLimitThrownMessage` exactly when the status is 403 and the message
mentions a rate limit; otherwise execution continues on a fallback path. -/
def searchRequestRethrow (status : Nat) (message : String) : Option String :=
  if status == 403 && strIncludes message "rate limit" then some rateLimitThrownMessage
  else none

/-- A JavaScript error as seen by the outer handler: an optional HTTP status
and a message. -/
structure JSError where
  status : Option Nat
  message : String
deriving DecidableEq, Repr

/-- Outer catch of `fetchFreshPRsAwaitingReview` (lines 714-727): classify by
status, wrapping everything else as `Failed to fetch PRs: ...`. -/
def classifyFetchError (e : JSError) : String :=
  if e.status = some 401 then
    "GitHub authentication failed. Please check your access token."
  else if e.status = some 403 then
    "Insufficient GitHub permissions or rate limit exceeded. Please check your token permissions."
  else if e.status = some 404 then
    "GitHub API endpoint not found. This might be a temporary issue."
  else
    "Failed to fetch PRs: " ++ (if e.message = "" then "Unknown error" else e.message)

/-- Composition on the blocking path: when the initial search fails with the
given status and message, the message (if any) ultimately thrown to the
caller. The plain `Error` rethrown by the inner handler has no `status`
property, so the outer handler wraps it in its generic branch. -/
def blockingSearchFailureMessage (status : Nat) (message : String) : Option String :=
  match searchRequestRethrow status message with
  | some m => some (classifyFetchError { status := none, message := m })
  | none => none

/-! ### Model of `prStatusService.ts`

The triage store is one JSON blob under a single key, a map from PR id to a
record of three flags and a timestamp. The parsed blob is an association
list in object-key order. -/

/-- One triage record (`{id, spicy, delayed, completed, timestamp}`). -/
structure PRStatus where
  id : Nat
  spicy : Bool
  delayed : Bool
  completed : Bool
  timestamp : Nat
deriving DecidableEq, Repr

/-- Seven-day TTL of triage records. -/
def STATUS_CACHE_DURATION : Nat := 7 * 24 * 60 * 60 * 1000

/-- Parsed triage blob. -/
abbrev StatusBlob := List (Nat × PRStatus)

/-- Liveness test on read: `now - status.timestamp < CACHE_DURATION`. -/
def statusLive (now : Nat) (p : Nat × PRStatus) : Bool :=
  decide (now - p.2.timestamp < STATUS_CACHE_DURATION)

/-- Model of `getAllStatuses`: iterate the blob entries in order, keep the
live ones, building the result map by repeated `Map.set`. -/
def getAllStatuses (now : Nat) (blob : StatusBlob) : StatusBlob :=
  blob.foldl (fun acc p => if statusLive now p then alSet acc p.1 p.2 else acc) []

/-- Model of `getStatus` (`allStatuses.get(prId) || null`). -/
def getStatus (now prId : Nat) (blob : StatusBlob) : Option PRStatus :=
  alGet prId (getAllStatuses now blob)

/-- A partial update as passed to `updateStatus` (never contains `id` or
`timestamp`). -/
structure StatusUpdate where
  spicy : Option Bool := none
  delayed : Option Bool := none
  completed : Option Bool := none

/-- Spread semantics of `{...existing, ...updates, timestamp: Date.now()}`. -/
def applyUpdate (existing : PRStatus) (u : StatusUpdate) (now : Nat) : PRStatus :=
  { id := existing.id
    spicy := u.spicy.getD existing.spicy
    delayed := u.delayed.getD existing.delayed
    completed := u.completed.getD existing.completed
    timestamp := now }

/-- Default record used when the PR has no stored status yet. -/
def defaultStatus (prId now : Nat) : PRStatus :=
  { id := prId, spicy := false, delayed := false, completed := false, timestamp := now }

/-- Model of `updateStatus`: load the whole TTL-filtered map, upsert the one
record with a fresh timestamp, and write the whole map back. -/
def updateStatus (now prId : Nat) (u : StatusUpdate) (blob : StatusBlob) : StatusBlob :=
  let m := getAllStatuses now blob
  let existing := (alGet prId m).getD (defaultStatus prId now)
  alSet m prId (applyUpdate existing u now)

/-- Model of `setSpicy`. -/
def setSpicy (now prId : Nat) (b : Bool) (blob : StatusBlob) : StatusBlob :=
  updateStatus now prId { spicy := some b } blob

/-- Model of `setDelayed`. -/
def setDelayed (now prId : Nat) (b : Bool) (blob : StatusBlob) : StatusBlob :=
  updateStatus now prId { delayed := some b } blob

/-- Model of `setCompleted`. -/
def setCompleted (now prId : Nat) (b : Bool) (blob : StatusBlob) : StatusBlob :=
  updateStatus now prId { completed := some b } blob

/-- Model of `getSpicyPRs`: the set of ids of live records whose spicy flag
is set (built by iterating the map and adding matching ids). -/
def getSpicyPRs (now : Nat) (blob : StatusBlob) : List Nat :=
  ((getAllStatuses now blob).filter fun p => p.2.spicy).map Prod.fst

theorem getAllStatuses_nodup (now : Nat) (blob : StatusBlob) :
    alNodupKeys (getAllStatuses now blob) := by
  suffices h : ∀ (l : StatusBlob) (acc : StatusBlob), alNodupKeys acc →
      alNodupKeys (l.foldl (fun acc p => if statusLive now p then alSet acc p.1 p.2 else acc) acc) by
    exact h blob [] (by simp [alNodupKeys])
  intro l
  induction l with
  | nil => intro acc h; simpa using h
  | cons p rest ih =>
      intro acc h
      simp only [List.foldl_cons]
      by_cases hl : statusLive now p
      · simpa [hl] using ih _ (alNodupKeys_alSet h p.1 p.2)
      · simpa [hl] using ih _ h

theorem getAllStatuses_eq_filter (now : Nat) {blob : StatusBlob}
    (hn : alNodupKeys blob) :
    getAllStatuses now blob = blob.filter (statusLive now) := by
  suffices h : ∀ (l : StatusBlob) (acc : StatusBlob),
      (∀ k ∈ acc.map Prod.fst, k ∉ l.map Prod.fst) → (l.map Prod.fst).Nodup →
      l.foldl (fun acc p => if statusLive now p then alSet acc p.1 p.2 else acc) acc =
        acc ++ l.filter (statusLive now) by
    simpa using h blob [] (by simp) hn
  intro l
  induction l with
  | nil => intro acc _ _; simp
  | cons p rest ih =>
      intro acc hd hn2
      obtain ⟨k, v⟩ := p
      simp only [List.map_cons, List.nodup_cons] at hn2
      have hknotacc : k ∉ acc.map Prod.fst := by
        intro hmem
        exact hd k hmem (by simp)
      have hstep : alSet acc k v = acc ++ [(k, v)] :=
        alSet_eq_append acc k v ((alGet_eq_none_iff acc k).mpr hknotacc)
      by_cases hl : statusLive now (k, v)
      · simp only [List.foldl_cons]
        rw [if_pos hl, hstep, ih (acc ++ [(k, v)])]
        · simp [List.filter_cons, hl]
        · intro k2 hk2
          simp only [List.map_append, List.mem_append, List.map_cons, List.map_nil,
            List.mem_singleton] at hk2
          rcases hk2 with hk2 | hk2
          · exact fun hc => hd k2 hk2 (by simp [hc])
          · subst hk2
            exact hn2.1
        · exact hn2.2
      · simp only [List.foldl_cons]
        rw [if_neg hl, ih acc]
        · simp [List.filter_cons, hl]
        · intro k2 hk2
          exact fun hc => hd k2 hk2 (by simp [hc])
        · exact hn2.2

theorem mem_getAllStatuses {now : Nat} {blob : StatusBlob} {x : Nat × PRStatus}
    (h : x ∈ getAllStatuses now blob) : x ∈ blob := by
  suffices hgen : ∀ (l : StatusBlob) (acc : StatusBlob),
      x ∈ l.foldl (fun acc p => if statusLive now p then alSet acc p.1 p.2 else acc) acc →
      x ∈ acc ∨ x ∈ l by
    rcases hgen blob [] h with hc | hc
    · simp at hc
    · exact hc
  intro l
  induction l with
  | nil => intro acc hx; exact Or.inl (by simpa using hx)
  | cons p rest ih =>
      intro acc hx
      simp only [List.foldl_cons] at hx
      by_cases hl : statusLive now p
      · rw [if_pos hl] at hx
        rcases ih _ hx with hc | hc
        · rcases mem_alSet_elim hc with hc | hc
          · exact Or.inl hc
          · exact Or.inr (by simp [hc])
        · exact Or.inr (List.mem_cons_of_mem _ hc)
      · rw [if_neg hl] at hx
        rcases ih _ hx with hc | hc
        · exact Or.inl hc
        · exact Or.inr (List.mem_cons_of_mem _ hc)

theorem alGet_getAllStatuses_live {now n : Nat} {s : StatusBlob} {r : PRStatus}
    (hn : alNodupKeys s) (h : alGet n s = some r)
    (hl : statusLive now (n, r) = true) :
    alGet n (getAllStatuses now s) = some r := by
  rw [getAllStatuses_eq_filter now hn]
  exact alGet_filter_pos _ h hl

theorem alGet_getAllStatuses_dead {now n : Nat} {s : StatusBlob} {r : PRStatus}
    (hn : alNodupKeys s) (h : alGet n s = some r)
    (hl : statusLive now (n, r) = false) :
    alGet n (getAllStatuses now s) = none := by
  rw [getAllStatuses_eq_filter now hn]
  exact alGet_filter_neg hn _ h hl

theorem updateStatus_nodup (now prId : Nat) (u : StatusUpdate) (blob : StatusBlob) :
    alNodupKeys (updateStatus now prId u blob) :=
  alNodupKeys_alSet (getAllStatuses_nodup now blob) _ _

theorem alGet_updateStatus_self (now prId : Nat) (u : StatusUpdate) (blob : StatusBlob) :
    alGet prId (updateStatus now prId u blob) =
      some (applyUpdate ((alGet prId (getAllStatuses now blob)).getD
        (defaultStatus prId now)) u now) :=
  alGet_alSet_self _ _ _

/-! ### Model of the AI review cache (`AICacheService`)

The service keeps the whole cache as one in-memory map, mirrored to a single
storage key on every mutation. The state carries both the map and the
persisted copy. -/

/-- One AI cache entry (`{data, timestamp, expiresAt}`); the review payload
itself is opaque. -/
structure AIEntry where
  data : Nat
  timestamp : Nat
  expiresAt : Nat
deriving DecidableEq, Repr

/-- The AI cache map `pr_{prId}_{sha-or-latest} -> entry`. -/
abbrev AIMap := List (String × AIEntry)

/-- In-memory map plus the copy persisted under `reviewly_ai_cache`. -/
structure AIState where
  cache : AIMap
  persisted : AIMap
deriving DecidableEq, Repr

/-- Default TTL of AI entries: 24 hours. -/
def DEFAULT_AI_TTL : Nat := 24 * 60 * 60 * 1000

/-- Key scheme of `generateKey`. -/
def aiKey (prId : Nat) (commitSha : Option String) : String :=
  "pr_" ++ (toString prId ++ ("_" ++ commitSha.getD "latest"))

/-- The map with expired entries removed (`cleanExpired`). -/
def cleanedAIMap (now : Nat) (m : AIMap) : AIMap :=
  m.filter fun p => decide (¬ now > p.2.expiresAt)

/-- Does the map hold an expired entry (so `cleanExpired` would remove
something and re-save)? -/
def hasExpiredAI (now : Nat) (m : AIMap) : Bool :=
  m.any fun p => decide (now > p.2.expiresAt)

/-- The `saveToStorage` call re-entered from `cleanExpired` right after the
expired entries were removed: the nested `cleanExpired` finds nothing, so no
further recursive save happens, and the catch handler retries the unchanged
map once. `okWrite` says whether serialising a given map to storage
succeeds; it is deterministic in the map, so that retry fails again. The
second component counts `setItem` attempts. -/
def saveAINoExpired (okWrite : AIMap → Bool) (st : AIState) : AIState × Nat :=
  if okWrite st.cache then ({ st with persisted := st.cache }, 1)
  else (st, 2)

/-- Model of `AICacheService.saveToStorage` (lines 157-170): try the write;
on failure run `cleanExpired` — which, when it actually removes entries,
recursively saves the cleaned map — then retry once. -/
def saveAI (now : Nat) (okWrite : AIMap → Bool) (st : AIState) : AIState × Nat :=
  if okWrite st.cache then ({ st with persisted := st.cache }, 1)
  else if hasExpiredAI now st.cache then
    let st1 : AIState := { st with cache := cleanedAIMap now st.cache }
    let inner := saveAINoExpired okWrite st1
    if okWrite inner.1.cache then ({ inner.1 with persisted := inner.1.cache }, inner.2 + 2)
    else (inner.1, inner.2 + 2)
  else
    if okWrite st.cache then ({ st with persisted := st.cache }, 2) else (st, 2)

/-- Model of `AICacheService.set`: insert the entry with
`expiresAt = now + (ttl || defaultTTL)` and save. -/
def aiSet (now : Nat) (okWrite : AIMap → Bool) (prId : Nat) (data : Nat)
    (commitSha : Option String) (ttl : Option Nat) (st : AIState) : AIState × Nat :=
  let entry : AIEntry :=
    { data := data, timestamp := now, expiresAt := now + ttl.getD DEFAULT_AI_TTL }
  saveAI now okWrite { st with cache := alSet st.cache (aiKey prId commitSha) entry }

/-- Model of `AICacheService.get` (lines 51-67): a missing key is a miss; an
expired entry is deleted (and the blob re-saved) and reported as a miss; a
live entry is returned with no state change. -/
def aiGet (now : Nat) (okWrite : AIMap → Bool) (prId : Nat) (commitSha : Option String)
    (st : AIState) : Option Nat × AIState :=
  match alGet (aiKey prId commitSha) st.cache with
  | none => (none, st)
  | some entry =>
      if now > entry.expiresAt then
        (none, (saveAI now okWrite
          { st with cache := alRemove st.cache (aiKey prId commitSha) }).1)
      else (some entry.data, st)

/-! ### Raw stored blobs of the two single-key namespaces

The AI cache and the triage store each live under one storage key holding a
whole serialised map; a corrupt (non-JSON) string there makes `JSON.parse`
throw inside the service's own read path. -/

/-- Raw value stored under `reviewly_ai_cache`. -/
inductive AIStoredVal where
  | json (m : AIMap)
  | corrupt (s : String)
deriving DecidableEq, Repr

/-- Model of `AICacheService.loadFromStorage`: a missing key yields the empty
map, a corrupt value makes `JSON.parse` throw and the catch falls back to the
empty map; the stored key is not touched in either case. -/
def loadFromStorage (stored : Option AIStoredVal) : AIMap :=
  match stored with
  | none => []
  | some (.corrupt _) => []
  | some (.json m) => m

/-- Raw value stored under `reviewly_pr_statuses`. -/
inductive StatusStoredVal where
  | json (b : StatusBlob)
  | corrupt (s : String)
deriving DecidableEq, Repr

/-- Model of `getAllStatuses` including its parse step: a missing key yields
the empty map, a corrupt value makes `JSON.parse` throw and the catch returns
the empty map (the key is not removed); a parsed blob goes through the
TTL-filtering loop. -/
def getAllStatusesStored (now : Nat) (stored : Option StatusStoredVal) : StatusBlob :=
  match stored with
  | none => []
  | some (.corrupt _) => []
  | some (.json blob) => getAllStatuses now blob

/-! ### Claim C1 -/

/-- C1: the claim is refuted by the code. `getCachedUserRepos` returns
`{ data, etag }` without the stored timestamp, so `getRepositories` computes
`cacheAge = Date.now() - (cached.timestamp || 0) = Date.now()`. Whenever the
clock reads at least 15 minutes past the epoch — i.e. always in practice —
a call finding a non-empty user-repos entry written less than 5 minutes
earlier (and hence inside the 10-minute TTL of `getCachedUserRepos`) still
takes the blocking repository-list fetch, contradicting both the claim and
the comments in `getRepositories` itself. -/
theorem c1_fresh_user_repos_cache_still_blocks
    (now ts : Nat) (login : String) (page perPage : Nat)
    (data : List Nat) (etag : Option String) (st : Storage)
    (hget : alGet (userReposKey (userRepoListCacheKey login page perPage)) st =
      some (.json { data := some data, timestamp := ts, etag := etag }))
    (hne : data ≠ []) (hts : ts ≤ now) (hfresh : now - ts < 5 * minuteMs)
    (hclock : 15 * minuteMs ≤ now) :
    getRepositoriesAction now login page perPage st = FetchAction.blockingFetch := by
  have hval : (getCachedUserRepos now (userRepoListCacheKey login page perPage) st).1 =
      some { data := some data, etag := etag, timestamp := none } := by
    unfold getCachedUserRepos
    rw [hget]
    have hok : ¬ (now - ts > 10 * minuteMs) := by
      unfold minuteMs at hfresh ⊢
      omega
    simp [hok]
  unfold getRepositoriesAction
  rw [hval]
  have hlen : 0 < ((some data).getD []).length := by
    simpa using List.length_pos.mpr hne
  have h15 : ¬ (now - (Option.getD (none : Option Nat) 0) < 15 * minuteMs) := by
    simp only [Option.getD_none, Nat.sub_zero]
    omega
  simp only [hlen, if_true, h15, if_false]

/-- C1 witness: a concrete call one minute after the entry was written, at a
realistic clock value, still ends in the blocking fetch. -/
theorem c1_fresh_user_repos_cache_still_blocks_witness :
    getRepositoriesAction 1700000000000 "alice" 1 30
      [(userReposKey (userRepoListCacheKey "alice" 1 30),
        StoredVal.json { data := some [7], timestamp := 1699999940000, etag := none })] =
      FetchAction.blockingFetch :=
  c1_fresh_user_repos_cache_still_blocks 1700000000000 1699999940000 "alice" 1 30
    [7] none _ (by decide) (by decide) (by decide) (by decide) (by decide)

/-! ### Claim C2 -/

/-- Helper: any read of a non-empty aggregate entry aged more than 2 minutes
and at most 5 minutes returns the cached payload and fires a background
refresh. -/
theorem getAllPRsAction_stale {st : Storage} {e : RawEntry} {t : Nat}
    (hget : alGet (prsKey "_all_" allPrsCacheKey) st = some (.json e))
    (hne : e.data.getD [] ≠ [])
    (hlo : 2 * minuteMs < t - e.timestamp) (hhi : t - e.timestamp ≤ 5 * minuteMs) :
    getAllPRsAction t st = FetchAction.cachedBackgroundRefresh := by
  have hval : (getCachedPullRequests t "_all_" allPrsCacheKey st).1 = some e := by
    unfold getCachedPullRequests
    rw [hget]
    have hok : ¬ (t - e.timestamp > prCacheDuration "_all_") := by
      have hd : prCacheDuration "_all_" = 5 * minuteMs := rfl
      rw [hd]
      omega
    simp [hok]
  unfold getAllPRsAction
  rw [hval]
  have hlen : 0 < (e.data.getD []).length := List.length_pos.mpr hne
  have h10 : t - e.timestamp < 10 * minuteMs := by
    unfold minuteMs at hhi ⊢
    omega
  simp only [hlen, if_true, h10, hlo]

/-- C2 counterexample: with an aggregate entry three minutes old and the
cache untouched in between (the first background refresh has not completed,
so nothing has rewritten the entry), both of two successive reads schedule a
background refresh — the second call does NOT skip its refresh, so two
refreshes are in flight, refuting the claim's idempotent-in-flight
behaviour. -/
theorem c2_counterexample :
    getAllPRsAction (3 * minuteMs)
      [(prsKey "_all_" allPrsCacheKey,
        StoredVal.json { data := some [7], timestamp := 0, etag := none })] =
      FetchAction.cachedBackgroundRefresh ∧
    getAllPRsAction (3 * minuteMs + 50)
      [(prsKey "_all_" allPrsCacheKey,
        StoredVal.json { data := some [7], timestamp := 0, etag := none })] =
      FetchAction.cachedBackgroundRefresh := by
  constructor <;> decide

/-- C2 amended: each call that finds a non-empty aggregate entry aged more
than 2 minutes and at most 5 minutes (beyond 5 minutes the namespace `get`
itself evicts the entry) returns the cached payload synchronously and
schedules its own background refresh; there is no in-flight deduplication,
so a second call made before the first refresh completes (the cache entry
unchanged) schedules a second refresh. -/
theorem c2_no_inflight_deduplication (st : Storage) (e : RawEntry) (t1 t2 : Nat)
    (hget : alGet (prsKey "_all_" allPrsCacheKey) st = some (.json e))
    (hne : e.data.getD [] ≠ [])
    (h1lo : 2 * minuteMs < t1 - e.timestamp) (h1hi : t1 - e.timestamp ≤ 5 * minuteMs)
    (h2lo : 2 * minuteMs < t2 - e.timestamp) (h2hi : t2 - e.timestamp ≤ 5 * minuteMs) :
    getAllPRsAction t1 st = FetchAction.cachedBackgroundRefresh ∧
    getAllPRsAction t2 st = FetchAction.cachedBackgroundRefresh :=
  ⟨getAllPRsAction_stale hget hne h1lo h1hi,
    getAllPRsAction_stale hget hne h2lo h2hi⟩

/-- C2 witness: concrete reads at 3 minutes and 3 minutes plus 50
milliseconds of age. -/
theorem c2_no_inflight_deduplication_witness :
    getAllPRsAction (3 * minuteMs)
      [(prsKey "_all_" allPrsCacheKey,
        StoredVal.json { data := some [9], timestamp := 0, etag := none })] =
      FetchAction.cachedBackgroundRefresh ∧
    getAllPRsAction (3 * minuteMs + 50)
      [(prsKey "_all_" allPrsCacheKey,
        StoredVal.json { data := some [9], timestamp := 0, etag := none })] =
      FetchAction.cachedBackgroundRefresh :=
  c2_no_inflight_deduplication _
    { data := some [9], timestamp := 0, etag := none } (3 * minuteMs) (3 * minuteMs + 50)
    (by decide) (by decide) (by decide) (by decide) (by decide) (by decide)

/-! ### Claim C3 -/

/-- C3: in every namespace, an entry written at time `T` and read through the
namespace's own `get` strictly later than `T` plus that namespace's TTL is a
miss: the repository get after `CACHE_DURATION`, the pull-request get after
its owner-dependent duration, the file and user-repos gets after 10 minutes,
the AI get after the default 24-hour TTL, and the triage map drops the
record after `STATUS_CACHE_DURATION`. Storage writes succeed in every case
(`ok` flags true). -/
theorem c3_ttl_never_returns_expired
    (st : Storage) (aist : AIState) (blob : StatusBlob)
    (owner repo path sha login : String) (data : List Nat) (content : String)
    (etag : Option String) (prId payload : Nat) (commitSha : Option String)
    (u : StatusUpdate) (T now : Nat) :
    (now > T + CACHE_DURATION →
      (getCachedRepository now owner repo
        (cacheRepository true T owner repo data etag st).1).1 = none) ∧
    (now > T + prCacheDuration owner →
      (getCachedPullRequests now owner repo
        (cachePullRequests true T owner repo data etag st).1).1 = none) ∧
    (now > T + 10 * minuteMs →
      (getCachedFileContent now owner repo path sha
        (cacheFileContent true T owner repo path sha content st).1).1 = none) ∧
    (now > T + 10 * minuteMs →
      (getCachedUserRepos now login
        (cacheUserRepos true T login data etag st).1).1 = none) ∧
    (now > T + DEFAULT_AI_TTL →
      (aiGet now (fun _ => true) prId commitSha
        (aiSet T (fun _ => true) prId payload commitSha none aist).1).1 = none) ∧
    (now > T + STATUS_CACHE_DURATION →
      alGet prId (getAllStatuses now (updateStatus T prId u blob)) = none) := by
  refine ⟨?_, ?_, ?_, ?_, ?_, ?_⟩
  · intro h
    have hexp : now - T > CACHE_DURATION := by omega
    simp [cacheRepository, getCachedRepository, alGet_alSet_self, hexp]
  · intro h
    have hexp : now - T > prCacheDuration owner := by omega
    simp [cachePullRequests, getCachedPullRequests, alGet_alSet_self, hexp]
  · intro h
    have hexp : now - T > 10 * minuteMs := by omega
    simp [cacheFileContent, getCachedFileContent, alGet_alSet_self, hexp]
  · intro h
    have hexp : now - T > 10 * minuteMs := by omega
    simp [cacheUserRepos, getCachedUserRepos, alGet_alSet_self, hexp]
  · intro h
    have hcache : ((aiSet T (fun _ => true) prId payload commitSha none aist).1).cache =
        alSet aist.cache (aiKey prId commitSha)
          { data := payload, timestamp := T, expiresAt := T + DEFAULT_AI_TTL } := by
      simp [aiSet, saveAI]
    unfold aiGet
    rw [hcache, alGet_alSet_self]
    simp [h]
  · intro h
    have hr := alGet_updateStatus_self T prId u blob
    apply alGet_getAllStatuses_dead (updateStatus_nodup T prId u blob) hr
    simp only [statusLive, applyUpdate, decide_eq_false_iff_not]
    omega

/-- C3 witness: writes at time 0, read a tick after seven days, miss in all
six namespaces. -/
theorem c3_ttl_never_returns_expired_witness :
    (getCachedRepository 604800001 "o" "r"
      (cacheRepository true 0 "o" "r" [1] none []).1).1 = none ∧
    (getCachedPullRequests 604800001 "o" "r"
      (cachePullRequests true 0 "o" "r" [1] none []).1).1 = none ∧
    (getCachedFileContent 604800001 "o" "r" "p" "s"
      (cacheFileContent true 0 "o" "r" "p" "s" "c" []).1).1 = none ∧
    (getCachedUserRepos 604800001 "u"
      (cacheUserRepos true 0 "u" [1] none []).1).1 = none ∧
    (aiGet 604800001 (fun _ => true) 1 none
      (aiSet 0 (fun _ => true) 1 5 none none ⟨[], []⟩).1).1 = none ∧
    alGet 1 (getAllStatuses 604800001
      (updateStatus 0 1 { spicy := some true } [])) = none := by
  have h := c3_ttl_never_returns_expired [] ⟨[], []⟩ [] "o" "r" "p" "s" "u" [1] "c"
    none 1 5 none { spicy := some true } 0 604800001
  exact ⟨h.1 (by decide), h.2.1 (by decide), h.2.2.1 (by decide),
    h.2.2.2.1 (by decide), h.2.2.2.2.1 (by decide), h.2.2.2.2.2 (by decide)⟩

/-! ### Claim C4 -/

/-- C4 counterexample: a `cacheRepository` call whose underlying write fails
performs exactly one `setItem` attempt and leaves storage untouched, even
though the storage holds an entry that is expired at call time (age three
minutes against the two-minute pull-request TTL): no eviction and no retry
happen, refuting the claimed evict-and-retry for the repoCache namespaces. -/
theorem c4_counterexample :
    cacheRepository false (3 * minuteMs) "a" "b" [2] none
        [("prs_o_r", StoredVal.json { data := some [1], timestamp := 0, etag := none })] =
      ([("prs_o_r", StoredVal.json { data := some [1], timestamp := 0, etag := none })], 1) ∧
    3 * minuteMs - 0 > PR_CACHE_DURATION := by
  constructor <;> decide

/-- C4 amended: on a failing storage write, the four repoCache namespace
writes drop the write after a single attempt (no eviction, no retry, no
exception — the functions are total and return the storage unchanged); only
the AI cache save evicts and retries: when its map holds no expired entry it
retries exactly once (two attempts in all), and when it does hold expired
entries the save leaves the in-memory map equal to the map with expired
entries evicted. -/
theorem c4_only_ai_cache_retries
    (now : Nat) (owner repo path sha login : String) (data : List Nat)
    (content : String) (etag : Option String) (st : Storage) (aist : AIState)
    (okWrite : AIMap → Bool) :
    cacheRepository false now owner repo data etag st = (st, 1) ∧
    cachePullRequests false now owner repo data etag st = (st, 1) ∧
    cacheFileContent false now owner repo path sha content st = (st, 1) ∧
    cacheUserRepos false now login data etag st = (st, 1) ∧
    (okWrite aist.cache = false → hasExpiredAI now aist.cache = false →
      saveAI now okWrite aist = (aist, 2)) ∧
    (okWrite aist.cache = false → hasExpiredAI now aist.cache = true →
      ((saveAI now okWrite aist).1).cache = cleanedAIMap now aist.cache) := by
  refine ⟨rfl, rfl, rfl, rfl, ?_, ?_⟩
  · intro h1 h2
    simp [saveAI, h1, h2]
  · intro h1 h2
    simp only [saveAI, h1, Bool.false_eq_true, if_false, h2, if_true, saveAINoExpired]
    by_cases hc : okWrite (cleanedAIMap now aist.cache) = true
    · simp [hc]
    · simp [hc]

/-- C4 witness: a quota-failing write against a one-entry storage and, for
the AI parts, an always-failing write over a live-entry map and over an
expired-entry map. -/
theorem c4_only_ai_cache_retries_witness :
    cacheRepository false 10 "a" "b" [2] none
        [("repo_a_b", StoredVal.json { data := some [1], timestamp := 0, etag := none })] =
      ([("repo_a_b", StoredVal.json { data := some [1], timestamp := 0, etag := none })], 1) ∧
    saveAI 10 (fun _ => false) ⟨[("pr_1_latest", ⟨5, 0, 99⟩)], []⟩ =
      (⟨[("pr_1_latest", ⟨5, 0, 99⟩)], []⟩, 2) ∧
    ((saveAI 10 (fun _ => false) ⟨[("pr_1_latest", ⟨5, 0, 3⟩)], []⟩).1).cache =
      cleanedAIMap 10 [("pr_1_latest", ⟨5, 0, 3⟩)] := by
  refine ⟨?_, ?_, ?_⟩
  · exact (c4_only_ai_cache_retries 10 "a" "b" "p" "s" "u" [2] "c" none
      [("repo_a_b", StoredVal.json { data := some [1], timestamp := 0, etag := none })]
      ⟨[], []⟩ (fun _ => false)).1
  · exact (c4_only_ai_cache_retries 10 "a" "b" "p" "s" "u" [2] "c" none []
      ⟨[("pr_1_latest", ⟨5, 0, 99⟩)], []⟩ (fun _ => false)).2.2.2.2.1
      (by decide) (by decide)
  · exact (c4_only_ai_cache_retries 10 "a" "b" "p" "s" "u" [2] "c" none []
      ⟨[("pr_1_latest", ⟨5, 0, 3⟩)], []⟩ (fun _ => false)).2.2.2.2.2
      (by decide) (by decide)

/-! ### Claim C5 -/

/-- C5 counterexample: reading a corrupt (non-JSON) value under a repository
key returns null but does NOT remove the corrupt key — storage is unchanged
and the key still present after the read, refuting the removal half of the
claim. -/
theorem c5_counterexample :
    (getCachedRepository 0 "o" "r" [("repo_o_r", StoredVal.corrupt "xx")]).1 = none ∧
    (getCachedRepository 0 "o" "r" [("repo_o_r", StoredVal.corrupt "xx")]).2 =
      [("repo_o_r", StoredVal.corrupt "xx")] ∧
    alGet "repo_o_r"
      ((getCachedRepository 0 "o" "r" [("repo_o_r", StoredVal.corrupt "xx")]).2) =
      some (StoredVal.corrupt "xx") := by
  refine ⟨?_, ?_, ?_⟩ <;> decide

/-- Helper: every `repo_` key is recognised by the sweeper. -/
theorem managedKey_repoKey (owner repo : String) : managedKey (repoKey owner repo) = true := by
  simp [managedKey, repoKey, strStartsWith_append]

/-- Helper: every `prs_` key is recognised by the sweeper. -/
theorem managedKey_prsKey (owner repo : String) : managedKey (prsKey owner repo) = true := by
  simp [managedKey, prsKey, strStartsWith_append]

/-- Helper: every `file_` key is recognised by the sweeper. -/
theorem managedKey_fileKey (owner repo path sha : String) :
    managedKey (fileKey owner repo path sha) = true := by
  simp [managedKey, fileKey, strStartsWith_append]

/-- Helper: every `user_repos_` key is recognised by the sweeper. -/
theorem managedKey_userReposKey (login : String) :
    managedKey (userReposKey login) = true := by
  simp [managedKey, userReposKey, strStartsWith_append]

/-- Helper: the sweeper removes a corrupt value under any key it manages. -/
theorem keepOnSweep_corrupt {k : String} (hm : managedKey k = true) (now : Nat)
    (s : String) : keepOnSweep now k (StoredVal.corrupt s) = false := by
  simp [keepOnSweep, hm]

/-- C5 amended: a read of a corrupt (non-JSON) value yields a miss without
throwing in every namespace, and in no namespace does the read itself remove
the corrupt key. In the four repoCache namespaces (`repo_`, `prs_`, `file_`,
`user_repos_`) the read leaves storage untouched and the corrupt key is
instead removed by `clearExpired` (the five-minute sweeper tick). In the two
single-blob namespaces (`reviewly_ai_cache`, `reviewly_pr_statuses`) the
parse failure is caught inside the service, which falls back to the empty
map — a subsequent `get` is a miss — and the blob keys are outside the
sweeper's prefixes, so `clearExpired` leaves them (corrupt or not)
untouched. -/
theorem c5_corrupt_entry_read_miss
    (now prId : Nat) (commitSha : Option String) (aiPersisted : AIMap)
    (owner repo path sha login s : String) (st : Storage)
    (hn : alNodupKeys st) :
    (alGet (repoKey owner repo) st = some (.corrupt s) →
      (getCachedRepository now owner repo st).1 = none ∧
      (getCachedRepository now owner repo st).2 = st ∧
      alGet (repoKey owner repo) (clearExpired now st) = none) ∧
    (alGet (prsKey owner repo) st = some (.corrupt s) →
      (getCachedPullRequests now owner repo st).1 = none ∧
      (getCachedPullRequests now owner repo st).2 = st ∧
      alGet (prsKey owner repo) (clearExpired now st) = none) ∧
    (alGet (fileKey owner repo path sha) st = some (.corrupt s) →
      (getCachedFileContent now owner repo path sha st).1 = none ∧
      (getCachedFileContent now owner repo path sha st).2 = st ∧
      alGet (fileKey owner repo path sha) (clearExpired now st) = none) ∧
    (alGet (userReposKey login) st = some (.corrupt s) →
      (getCachedUserRepos now login st).1 = none ∧
      (getCachedUserRepos now login st).2 = st ∧
      alGet (userReposKey login) (clearExpired now st) = none) ∧
    (aiGet now (fun _ => true) prId commitSha
        ⟨loadFromStorage (some (.corrupt s)), aiPersisted⟩ =
      (none, ⟨loadFromStorage (some (.corrupt s)), aiPersisted⟩)) ∧
    getAllStatusesStored now (some (.corrupt s)) = [] ∧
    (∀ v, alGet "reviewly_ai_cache" st = some v →
      alGet "reviewly_ai_cache" (clearExpired now st) = some v) ∧
    (∀ v, alGet "reviewly_pr_statuses" st = some v →
      alGet "reviewly_pr_statuses" (clearExpired now st) = some v) := by
  refine ⟨?_, ?_, ?_, ?_, rfl, rfl, ?_, ?_⟩
  · intro hget
    refine ⟨?_, ?_,
      alGet_filter_neg hn _ hget (keepOnSweep_corrupt (managedKey_repoKey owner repo) now s)⟩
    · unfold getCachedRepository
      rw [hget]
    · unfold getCachedRepository
      rw [hget]
  · intro hget
    refine ⟨?_, ?_,
      alGet_filter_neg hn _ hget (keepOnSweep_corrupt (managedKey_prsKey owner repo) now s)⟩
    · unfold getCachedPullRequests
      rw [hget]
    · unfold getCachedPullRequests
      rw [hget]
  · intro hget
    refine ⟨?_, ?_, alGet_filter_neg hn _ hget
      (keepOnSweep_corrupt (managedKey_fileKey owner repo path sha) now s)⟩
    · unfold getCachedFileContent
      rw [hget]
    · unfold getCachedFileContent
      rw [hget]
  · intro hget
    refine ⟨?_, ?_, alGet_filter_neg hn _ hget
      (keepOnSweep_corrupt (managedKey_userReposKey login) now s)⟩
    · unfold getCachedUserRepos
      rw [hget]
    · unfold getCachedUserRepos
      rw [hget]
  · intro v hv
    refine alGet_filter_pos _ hv ?_
    have hmk : managedKey "reviewly_ai_cache" = false := by decide
    simp [keepOnSweep, hmk]
  · intro v hv
    refine alGet_filter_pos _ hv ?_
    have hmk : managedKey "reviewly_pr_statuses" = false := by decide
    simp [keepOnSweep, hmk]

/-- C5 witness: one storage holding a corrupt value under a key of each of
the four repoCache namespaces and under the two blob keys. -/
theorem c5_corrupt_entry_read_miss_witness :
    ((getCachedRepository 7 "o" "r" [("repo_o_r", StoredVal.corrupt "zz"),
        ("prs_o_r", StoredVal.corrupt "zz"), ("file_o_r_p_s", StoredVal.corrupt "zz"),
        ("user_repos_u", StoredVal.corrupt "zz"), ("reviewly_ai_cache", StoredVal.corrupt "zz"),
        ("reviewly_pr_statuses", StoredVal.corrupt "zz")]).1 = none ∧
      (getCachedRepository 7 "o" "r" [("repo_o_r", StoredVal.corrupt "zz"),
        ("prs_o_r", StoredVal.corrupt "zz"), ("file_o_r_p_s", StoredVal.corrupt "zz"),
        ("user_repos_u", StoredVal.corrupt "zz"), ("reviewly_ai_cache", StoredVal.corrupt "zz"),
        ("reviewly_pr_statuses", StoredVal.corrupt "zz")]).2 =
        [("repo_o_r", StoredVal.corrupt "zz"),
        ("prs_o_r", StoredVal.corrupt "zz"), ("file_o_r_p_s", StoredVal.corrupt "zz"),
        ("user_repos_u", StoredVal.corrupt "zz"), ("reviewly_ai_cache", StoredVal.corrupt "zz"),
        ("reviewly_pr_statuses", StoredVal.corrupt "zz")] ∧
      alGet (repoKey "o" "r") (clearExpired 7 [("repo_o_r", StoredVal.corrupt "zz"),
        ("prs_o_r", StoredVal.corrupt "zz"), ("file_o_r_p_s", StoredVal.corrupt "zz"),
        ("user_repos_u", StoredVal.corrupt "zz"), ("reviewly_ai_cache", StoredVal.corrupt "zz"),
        ("reviewly_pr_statuses", StoredVal.corrupt "zz")]) = none) ∧
    ((getCachedPullRequests 7 "o" "r" [("repo_o_r", StoredVal.corrupt "zz"),
        ("prs_o_r", StoredVal.corrupt "zz"), ("file_o_r_p_s", StoredVal.corrupt "zz"),
        ("user_repos_u", StoredVal.corrupt "zz"), ("reviewly_ai_cache", StoredVal.corrupt "zz"),
        ("reviewly_pr_statuses", StoredVal.corrupt "zz")]).1 = none ∧
      alGet (prsKey "o" "r") (clearExpired 7 [("repo_o_r", StoredVal.corrupt "zz"),
        ("prs_o_r", StoredVal.corrupt "zz"), ("file_o_r_p_s", StoredVal.corrupt "zz"),
        ("user_repos_u", StoredVal.corrupt "zz"), ("reviewly_ai_cache", StoredVal.corrupt "zz"),
        ("reviewly_pr_statuses", StoredVal.corrupt "zz")]) = none) ∧
    ((getCachedFileContent 7 "o" "r" "p" "s" [("repo_o_r", StoredVal.corrupt "zz"),
        ("prs_o_r", StoredVal.corrupt "zz"), ("file_o_r_p_s", StoredVal.corrupt "zz"),
        ("user_repos_u", StoredVal.corrupt "zz"), ("reviewly_ai_cache", StoredVal.corrupt "zz"),
        ("reviewly_pr_statuses", StoredVal.corrupt "zz")]).1 = none ∧
      alGet (fileKey "o" "r" "p" "s") (clearExpired 7 [("repo_o_r", StoredVal.corrupt "zz"),
        ("prs_o_r", StoredVal.corrupt "zz"), ("file_o_r_p_s", StoredVal.corrupt "zz"),
        ("user_repos_u", StoredVal.corrupt "zz"), ("reviewly_ai_cache", StoredVal.corrupt "zz"),
        ("reviewly_pr_statuses", StoredVal.corrupt "zz")]) = none) ∧
    ((getCachedUserRepos 7 "u" [("repo_o_r", StoredVal.corrupt "zz"),
        ("prs_o_r", StoredVal.corrupt "zz"), ("file_o_r_p_s", StoredVal.corrupt "zz"),
        ("user_repos_u", StoredVal.corrupt "zz"), ("reviewly_ai_cache", StoredVal.corrupt "zz"),
        ("reviewly_pr_statuses", StoredVal.corrupt "zz")]).1 = none ∧
      alGet (userReposKey "u") (clearExpired 7 [("repo_o_r", StoredVal.corrupt "zz"),
        ("prs_o_r", StoredVal.corrupt "zz"), ("file_o_r_p_s", StoredVal.corrupt "zz"),
        ("user_repos_u", StoredVal.corrupt "zz"), ("reviewly_ai_cache", StoredVal.corrupt "zz"),
        ("reviewly_pr_statuses", StoredVal.corrupt "zz")]) = none) ∧
    (aiGet 7 (fun _ => true) 1 none ⟨loadFromStorage (some (.corrupt "zz")), []⟩ =
      (none, ⟨loadFromStorage (some (.corrupt "zz")), []⟩)) ∧
    getAllStatusesStored 7 (some (.corrupt "zz")) = [] ∧
    alGet "reviewly_ai_cache" (clearExpired 7 [("repo_o_r", StoredVal.corrupt "zz"),
      ("prs_o_r", StoredVal.corrupt "zz"), ("file_o_r_p_s", StoredVal.corrupt "zz"),
      ("user_repos_u", StoredVal.corrupt "zz"), ("reviewly_ai_cache", StoredVal.corrupt "zz"),
      ("reviewly_pr_statuses", StoredVal.corrupt "zz")]) = some (StoredVal.corrupt "zz") ∧
    alGet "reviewly_pr_statuses" (clearExpired 7 [("repo_o_r", StoredVal.corrupt "zz"),
      ("prs_o_r", StoredVal.corrupt "zz"), ("file_o_r_p_s", StoredVal.corrupt "zz"),
      ("user_repos_u", StoredVal.corrupt "zz"), ("reviewly_ai_cache", StoredVal.corrupt "zz"),
      ("reviewly_pr_statuses", StoredVal.corrupt "zz")]) = some (StoredVal.corrupt "zz") := by
  have h := c5_corrupt_entry_read_miss 7 1 none [] "o" "r" "p" "s" "u" "zz"
    [("repo_o_r", StoredVal.corrupt "zz"),
      ("prs_o_r", StoredVal.corrupt "zz"), ("file_o_r_p_s", StoredVal.corrupt "zz"),
      ("user_repos_u", StoredVal.corrupt "zz"), ("reviewly_ai_cache", StoredVal.corrupt "zz"),
      ("reviewly_pr_statuses", StoredVal.corrupt "zz")]
    (by unfold alNodupKeys; decide)
  refine ⟨?_, ?_, ?_, ?_, h.2.2.2.2.1, h.2.2.2.2.2.1, ?_, ?_⟩
  · exact h.1 (by decide)
  · exact ⟨(h.2.1 (by decide)).1, (h.2.1 (by decide)).2.2⟩
  · exact ⟨(h.2.2.1 (by decide)).1, (h.2.2.1 (by decide)).2.2⟩
  · exact ⟨(h.2.2.2.1 (by decide)).1, (h.2.2.2.1 (by decide)).2.2⟩
  · exact h.2.2.2.2.2.2.1 (StoredVal.corrupt "zz") (by decide)
  · exact h.2.2.2.2.2.2.2 (StoredVal.corrupt "zz") (by decide)

/-! ### Claim C6 -/

/-- C6: on the blocking path, a search failure with status 403 whose message
mentions a rate limit is rethrown by the inner handler and wrapped by the
outer one into a message containing (case-insensitively) the words
`rate limit exceeded`, and that thrown message differs from the one produced
for a 403 whose message does not mention rate limits. -/
theorem c6_rate_limit_distinguished (msg msg2 : String)
    (h : strIncludes msg "rate limit" = true)
    (h2 : strIncludes msg2 "rate limit" = false) :
    blockingSearchFailureMessage 403 msg =
      some ("Failed to fetch PRs: " ++ rateLimitThrownMessage) ∧
    strIncludes (strLower ("Failed to fetch PRs: " ++ rateLimitThrownMessage))
      "rate limit exceeded" = true ∧
    ("Failed to fetch PRs: " ++ rateLimitThrownMessage) ≠
      classifyFetchError { status := some 403, message := msg2 } := by
  refine ⟨?_, by decide, ?_⟩
  · have hc : classifyFetchError { status := none, message := rateLimitThrownMessage } =
        "Failed to fetch PRs: " ++ rateLimitThrownMessage := by decide
    simp [blockingSearchFailureMessage, searchRequestRethrow, h, hc]
  · have hc : classifyFetchError { status := some 403, message := msg2 } =
        "Insufficient GitHub permissions or rate limit exceeded. Please check your token permissions." :=
      rfl
    rw [hc]
    decide

/-- C6 witness: a concrete rate-limited message and a concrete plain
permissions message. -/
theorem c6_rate_limit_distinguished_witness :
    blockingSearchFailureMessage 403 "API rate limit exceeded for user" =
      some ("Failed to fetch PRs: " ++ rateLimitThrownMessage) ∧
    strIncludes (strLower ("Failed to fetch PRs: " ++ rateLimitThrownMessage))
      "rate limit exceeded" = true ∧
    ("Failed to fetch PRs: " ++ rateLimitThrownMessage) ≠
      classifyFetchError { status := some 403, message := "Resource not accessible" } :=
  c6_rate_limit_distinguished "API rate limit exceeded for user"
    "Resource not accessible" (by decide) (by decide)

/-! ### Claims C7 and C8: triage store helpers -/

/-- Helper: `updateStatus` on a blob whose TTL-filtered map already holds a
record for the id stores exactly the spread-updated record. -/
theorem updateStatus_of_get {blob : StatusBlob} {n now : Nat} {r : PRStatus}
    (u : StatusUpdate) (hget : alGet n (getAllStatuses now blob) = some r) :
    alGet n (updateStatus now n u blob) = some (applyUpdate r u now) := by
  simp only [updateStatus, hget, Option.getD_some]
  exact alGet_alSet_self _ _ _

/-- Helper: a second `updateStatus` made while the stored record is still
live updates that record. -/
theorem updateStatus_then {blob : StatusBlob} {n : Nat} {r : PRStatus} (now2 : Nat)
    (u : StatusUpdate) (hn : alNodupKeys blob) (hget : alGet n blob = some r)
    (hlive : now2 - r.timestamp < STATUS_CACHE_DURATION) :
    alGet n (updateStatus now2 n u blob) = some (applyUpdate r u now2) :=
  updateStatus_of_get u
    (alGet_getAllStatuses_live hn hget (by simpa [statusLive] using hlive))

/-- C7: `setSpicy(n, true)` twice stores the same record as once, except for
the timestamp (the boolean flags are unchanged and spicy stays true), and
`setSpicy(n, true)` followed by `setSpicy(n, false)` leaves `n` outside
`getSpicyPRs()`, read at any later time. -/
theorem c7_spicy_idempotent_then_clear (blob : StatusBlob) (n now1 now2 now3 : Nat)
    (hTTL : now2 - now1 < STATUS_CACHE_DURATION) :
    (∃ r1, alGet n (setSpicy now1 n true blob) = some r1 ∧
      r1.spicy = true ∧ r1.timestamp = now1 ∧
      alGet n (setSpicy now2 n true (setSpicy now1 n true blob)) =
        some { r1 with timestamp := now2 }) ∧
    n ∉ getSpicyPRs now3 (setSpicy now2 n false (setSpicy now1 n true blob)) := by
  have hs1 := alGet_updateStatus_self now1 n { spicy := some true } blob
  generalize hE : (alGet n (getAllStatuses now1 blob)).getD (defaultStatus n now1) = E at hs1
  have hn1 : alNodupKeys (setSpicy now1 n true blob) :=
    updateStatus_nodup now1 n { spicy := some true } blob
  constructor
  · refine ⟨applyUpdate E { spicy := some true } now1, hs1,
      by simp [applyUpdate], by simp [applyUpdate], ?_⟩
    have hstep := updateStatus_then now2 { spicy := some true } hn1 hs1
      (by simpa [applyUpdate] using hTTL)
    rw [show setSpicy now2 n true (setSpicy now1 n true blob) =
        updateStatus now2 n { spicy := some true } (setSpicy now1 n true blob) from rfl,
      hstep]
    simp [applyUpdate]
  · intro hmem
    obtain ⟨p, hp, hpfst⟩ := List.mem_map.mp hmem
    obtain ⟨pk, pv⟩ := p
    simp only at hpfst
    rw [hpfst] at hp
    obtain ⟨hpin, hpspicy⟩ := List.mem_filter.mp hp
    have hin2 := mem_getAllStatuses hpin
    simp only [setSpicy, updateStatus] at hin2
    have hEq := mem_alSet_self_eq
      (getAllStatuses_nodup now2 (updateStatus now1 n { spicy := some true } blob)) hin2
    rw [hEq] at hpspicy
    simp [applyUpdate] at hpspicy

/-- C7 witness: empty starting blob, two writes five milliseconds apart. -/
theorem c7_spicy_idempotent_then_clear_witness :
    ((∃ r1, alGet 1 (setSpicy 0 1 true []) = some r1 ∧
      r1.spicy = true ∧ r1.timestamp = 0 ∧
      alGet 1 (setSpicy 5 1 true (setSpicy 0 1 true [])) =
        some { r1 with timestamp := 5 }) ∧
    1 ∉ getSpicyPRs 9 (setSpicy 5 1 false (setSpicy 0 1 true []))) :=
  c7_spicy_idempotent_then_clear [] 1 0 5 9 (by decide)

/-- C8: the triage store enforces no mutual exclusivity — after
`setSpicy(n, true)`, `setDelayed(n, true)`, `setCompleted(n, true)` the
stored record has all three flags true — and no setter clears any flag other
than the one it sets: each setter maps an existing live record to the same
record with only its own flag and the timestamp changed. -/
theorem c8_no_flag_exclusivity (blob blob2 : StatusBlob) (n now1 now2 now3 now4 : Nat)
    (h2 : now2 - now1 < STATUS_CACHE_DURATION)
    (h3 : now3 - now2 < STATUS_CACHE_DURATION)
    (h4 : now4 - now3 < STATUS_CACHE_DURATION) :
    (∃ r, getStatus now4 n (setCompleted now3 n true (setDelayed now2 n true
        (setSpicy now1 n true blob))) = some r ∧
      r.spicy = true ∧ r.delayed = true ∧ r.completed = true) ∧
    (∀ (m now : Nat) (b : Bool) (r : PRStatus),
      alGet m (getAllStatuses now blob2) = some r →
      alGet m (setSpicy now m b blob2) = some { r with spicy := b, timestamp := now } ∧
      alGet m (setDelayed now m b blob2) = some { r with delayed := b, timestamp := now } ∧
      alGet m (setCompleted now m b blob2) =
        some { r with completed := b, timestamp := now }) := by
  constructor
  · have hs1 := alGet_updateStatus_self now1 n { spicy := some true } blob
    generalize hE : (alGet n (getAllStatuses now1 blob)).getD (defaultStatus n now1) = E at hs1
    have hn1 : alNodupKeys (updateStatus now1 n { spicy := some true } blob) :=
      updateStatus_nodup now1 n { spicy := some true } blob
    have hstep2 := updateStatus_then now2 { delayed := some true } hn1 hs1
      (by simpa [applyUpdate] using h2)
    have hn2 : alNodupKeys (updateStatus now2 n { delayed := some true }
        (updateStatus now1 n { spicy := some true } blob)) :=
      updateStatus_nodup now2 n { delayed := some true }
        (updateStatus now1 n { spicy := some true } blob)
    have hstep3 := updateStatus_then now3 { completed := some true } hn2 hstep2
      (by simpa [applyUpdate] using h3)
    have hn3 : alNodupKeys (updateStatus now3 n { completed := some true }
        (updateStatus now2 n { delayed := some true }
          (updateStatus now1 n { spicy := some true } blob))) :=
      updateStatus_nodup now3 n { completed := some true }
        (updateStatus now2 n { delayed := some true }
          (updateStatus now1 n { spicy := some true } blob))
    have hlive3 : statusLive now4 ((n : Nat),
        applyUpdate (applyUpdate (applyUpdate E { spicy := some true } now1)
          { delayed := some true } now2) { completed := some true } now3) = true := by
      simp only [statusLive, applyUpdate, decide_eq_true_eq]
      omega
    have hfin := alGet_getAllStatuses_live hn3 hstep3 hlive3
    exact ⟨applyUpdate (applyUpdate (applyUpdate E { spicy := some true } now1)
        { delayed := some true } now2) { completed := some true } now3,
      hfin, rfl, rfl, rfl⟩
  · intro m now b r hget
    refine ⟨?_, ?_, ?_⟩
    · rw [show setSpicy now m b blob2 = updateStatus now m { spicy := some b } blob2 from rfl,
        updateStatus_of_get _ hget]
      simp [applyUpdate]
    · rw [show setDelayed now m b blob2 = updateStatus now m { delayed := some b } blob2 from rfl,
        updateStatus_of_get _ hget]
      simp [applyUpdate]
    · rw [show setCompleted now m b blob2 =
          updateStatus now m { completed := some b } blob2 from rfl,
        updateStatus_of_get _ hget]
      simp [applyUpdate]

/-- C8 witness: the three setters applied to an empty blob in quick
succession, and a preservation instance over a one-record blob. -/
theorem c8_no_flag_exclusivity_witness :
    ((∃ r, getStatus 3 1 (setCompleted 2 1 true (setDelayed 1 1 true
        (setSpicy 0 1 true []))) = some r ∧
      r.spicy = true ∧ r.delayed = true ∧ r.completed = true) ∧
    (∀ (m now : Nat) (b : Bool) (r : PRStatus),
      alGet m (getAllStatuses now [(4, ⟨4, false, true, false, 0⟩)]) = some r →
      alGet m (setSpicy now m b [(4, ⟨4, false, true, false, 0⟩)]) =
        some { r with spicy := b, timestamp := now } ∧
      alGet m (setDelayed now m b [(4, ⟨4, false, true, false, 0⟩)]) =
        some { r with delayed := b, timestamp := now } ∧
      alGet m (setCompleted now m b [(4, ⟨4, false, true, false, 0⟩)]) =
        some { r with completed := b, timestamp := now })) :=
  c8_no_flag_exclusivity [] [(4, ⟨4, false, true, false, 0⟩)] 1 0 1 2 3
    (by decide) (by decide) (by decide)

/-! ### Claim C9 -/

/-- C9: an aggregate pull-request entry aged strictly between 2 and 5
minutes is still returned by `getCachedPullRequests` (whose `_all_` duration
is 5 minutes), yet `clearExpired` — which applies the 2-minute `prs_` TTL to
every `prs_`-prefixed key, the `_all_` aggregate key included — removes it
from storage. -/
theorem c9_sweeper_evicts_live_aggregate (e : RawEntry) (now : Nat)
    (hlo : 2 * minuteMs < now - e.timestamp) (hhi : now - e.timestamp < 5 * minuteMs) :
    (getCachedPullRequests now "_all_" allPrsCacheKey
      [(prsKey "_all_" allPrsCacheKey, StoredVal.json e)]).1 = some e ∧
    clearExpired now [(prsKey "_all_" allPrsCacheKey, StoredVal.json e)] = [] := by
  constructor
  · unfold getCachedPullRequests
    have hg : alGet (prsKey "_all_" allPrsCacheKey)
        [(prsKey "_all_" allPrsCacheKey, StoredVal.json e)] = some (StoredVal.json e) := by
      simp [alGet]
    rw [hg]
    have hok : ¬ (now - e.timestamp > prCacheDuration "_all_") := by
      have hd : prCacheDuration "_all_" = 5 * minuteMs := rfl
      rw [hd]
      omega
    simp [hok]
  · have hpre : strStartsWith (prsKey "_all_" allPrsCacheKey) "prs_" = true :=
      strStartsWith_append _ _
    have hm : managedKey (prsKey "_all_" allPrsCacheKey) = true := by
      simp [managedKey, hpre]
    have httl : sweepTTL (prsKey "_all_" allPrsCacheKey) = PR_CACHE_DURATION := by
      simp [sweepTTL, hpre]
    have hkeep : keepOnSweep now (prsKey "_all_" allPrsCacheKey) (StoredVal.json e) = false := by
      simp [keepOnSweep, hm, httl, PR_CACHE_DURATION]
      omega
    simp [clearExpired, List.filter, hkeep]

/-- C9 witness: a three-minute-old aggregate entry. -/
theorem c9_sweeper_evicts_live_aggregate_witness :
    (getCachedPullRequests (3 * minuteMs) "_all_" allPrsCacheKey
      [(prsKey "_all_" allPrsCacheKey,
        StoredVal.json { data := some [3], timestamp := 0, etag := none })]).1 =
      some { data := some [3], timestamp := 0, etag := none } ∧
    clearExpired (3 * minuteMs)
      [(prsKey "_all_" allPrsCacheKey,
        StoredVal.json { data := some [3], timestamp := 0, etag := none })] = [] :=
  c9_sweeper_evicts_live_aggregate { data := some [3], timestamp := 0, etag := none }
    (3 * minuteMs) (by decide) (by decide)

/-! ### Claim C10 -/

/-- C10: `AICacheService.get` is read-only except on expiry (storage writes
succeeding): a missing key or a live entry leaves the state — in-memory map
and persisted blob — unchanged; an expired entry causes exactly that one key
to be deleted, the blob to be rewritten to the new map, and every other key
to keep its value. -/
theorem c10_ai_get_frame (now prId : Nat) (commitSha : Option String) (st : AIState) :
    (alGet (aiKey prId commitSha) st.cache = none →
      aiGet now (fun _ => true) prId commitSha st = (none, st)) ∧
    (∀ e, alGet (aiKey prId commitSha) st.cache = some e → ¬ now > e.expiresAt →
      aiGet now (fun _ => true) prId commitSha st = (some e.data, st)) ∧
    (∀ e, alGet (aiKey prId commitSha) st.cache = some e → now > e.expiresAt →
      aiGet now (fun _ => true) prId commitSha st =
        (none, ⟨alRemove st.cache (aiKey prId commitSha),
          alRemove st.cache (aiKey prId commitSha)⟩) ∧
      alGet (aiKey prId commitSha) (alRemove st.cache (aiKey prId commitSha)) = none ∧
      (∀ k2, k2 ≠ aiKey prId commitSha →
        alGet k2 (alRemove st.cache (aiKey prId commitSha)) = alGet k2 st.cache)) := by
  refine ⟨?_, ?_, ?_⟩
  · intro h
    unfold aiGet
    rw [h]
  · intro e he hfresh
    unfold aiGet
    rw [he]
    simp [hfresh]
  · intro e he hexp
    refine ⟨?_, alGet_alRemove_self _ _, fun k2 hk2 => alGet_alRemove_of_ne _ (Ne.symm hk2)⟩
    unfold aiGet
    rw [he]
    simp [hexp, saveAI]

/-- C10 witness: the three cases at concrete states — empty cache, a live
entry, and an expired entry. -/
theorem c10_ai_get_frame_witness :
    aiGet 5 (fun _ => true) 1 none ⟨[], []⟩ = (none, ⟨[], []⟩) ∧
    aiGet 5 (fun _ => true) 1 none
      ⟨[("pr_1_latest", ⟨7, 0, 9⟩)], [("pr_1_latest", ⟨7, 0, 9⟩)]⟩ =
      (some 7, ⟨[("pr_1_latest", ⟨7, 0, 9⟩)], [("pr_1_latest", ⟨7, 0, 9⟩)]⟩) ∧
    aiGet 5 (fun _ => true) 1 none
      ⟨[("pr_1_latest", ⟨7, 0, 3⟩), ("pr_2_latest", ⟨8, 0, 9⟩)], []⟩ =
      (none, ⟨alRemove [("pr_1_latest", ⟨7, 0, 3⟩), ("pr_2_latest", ⟨8, 0, 9⟩)] (aiKey 1 none),
        alRemove [("pr_1_latest", ⟨7, 0, 3⟩), ("pr_2_latest", ⟨8, 0, 9⟩)] (aiKey 1 none)⟩) :=
  ⟨(c10_ai_get_frame 5 1 none ⟨[], []⟩).1 (by decide),
    (c10_ai_get_frame 5 1 none
      ⟨[("pr_1_latest", ⟨7, 0, 9⟩)], [("pr_1_latest", ⟨7, 0, 9⟩)]⟩).2.1
      ⟨7, 0, 9⟩ (by decide) (by decide),
    ((c10_ai_get_frame 5 1 none
      ⟨[("pr_1_latest", ⟨7, 0, 3⟩), ("pr_2_latest", ⟨8, 0, 9⟩)], []⟩).2.2
      ⟨7, 0, 3⟩ (by decide) (by decide)).1⟩

end Reviewly
